import Mathlib

/-!
Verification development for the page-object base class (`BaseObject`) of the
hodman repository.  The two components with observable logic are embedded:

* the wait/poll engine (`waitUntil`, `waitForElements`), modelled as a pure
  state machine over an abstract clock: the predicate is a function of the
  invocation index and of the elapsed (sleep-accumulated) milliseconds, and a
  run produces a trace of events (predicate evaluations, timeout checks,
  sleeps) together with an outcome;
* the screenshot composition pipeline of `capture` (black-out fills, the
  conditional clip, the output file name, and the settlement of the returned
  promise).

External collaborators (the driver adapter, the pngjs-image codec, the
preceptor-core naming utility) are modelled from the interface the spec
assigns to them; everything else is translated from the source.
-/

namespace Hodman

/-- Truthiness-relevant shape of a JavaScript predicate result: whether the
value is truthy, and whether it exposes a `.then` member (a thenable). -/
structure PredResult where
  truthy : Bool
  hasThen : Bool
deriving DecidableEq

/-- One observable event of a `waitUntil` run. -/
inductive WaitEvent where
  | evalCall (idx elapsed : Nat) (truthy hasThen : Bool)
  | timeoutCheck (elapsed : Nat) (expired : Bool)
  | sleep (ms : Nat)
deriving DecidableEq

/-- How a `waitUntil` run ends: a normal return of `this`, a thrown timeout
error (carrying the full message string built by the source), or exhaustion of
the recursion fuel of the model (never reached for the fuel `waitUntil`
supplies; kept distinct so no theorem can hold by accident through it). -/
inductive WaitOutcome where
  | returned
  | timedOut (message : String)
  | fuelExhausted
deriving DecidableEq

/-- Full result of a `waitUntil` run: the event trace in order, the outcome,
and the elapsed milliseconds at the end (sleeps are the only clock advance;
predicate evaluation is instantaneous in the model). -/
structure WaitTrace where
  events : List WaitEvent
  outcome : WaitOutcome
  elapsed : Nat
deriving DecidableEq

/-- JavaScript `x || d` applied to an optional numeric argument, as in
`timeOut = timeOut || 10000`: an omitted argument and `0` both pick the
default. -/
def jsOrDefault (v : Option Nat) (d : Nat) : Nat :=
  match v with
  | none => d
  | some n => if n = 0 then d else n

/-- The `while (!fn())` loop of `waitUntil` (source lines 243-250).  At each
iteration the predicate is evaluated (invocation index `k`, elapsed clock
`e`); a truthy result exits the loop; otherwise the elapsed time is checked
against the timeout (`(+new Date()) - startTime >= timeOut`) and the loop
either throws the timeout error or sleeps `w` milliseconds and repeats.
`fuel` only bounds the recursion of the model. -/
def waitLoop (fn : Nat → Nat → PredResult) (message : String) (tmo w : Nat) :
    Nat → Nat → Nat → WaitTrace
  | 0, _, e => ⟨[], .fuelExhausted, e⟩
  | fuel+1, k, e =>
    if (fn k e).truthy then
      ⟨[.evalCall k e (fn k e).truthy (fn k e).hasThen], .returned, e⟩
    else if tmo ≤ e then
      ⟨[.evalCall k e (fn k e).truthy (fn k e).hasThen, .timeoutCheck e true],
        .timedOut ("Waited for an event, but timed-out. Message:" ++ message), e⟩
    else
      ⟨.evalCall k e (fn k e).truthy (fn k e).hasThen ::
          .timeoutCheck e false :: .sleep w ::
          (waitLoop fn message tmo w fuel (k+1) (e+w)).events,
        (waitLoop fn message tmo w fuel (k+1) (e+w)).outcome,
        (waitLoop fn message tmo w fuel (k+1) (e+w)).elapsed⟩

/-- `waitUntil` (source lines 230-254).  The predicate is evaluated once on
entry (`result = fn()`); if the result is truthy and exposes `.then`, the
body of that branch is an empty `TODO` and the method returns at once,
ignoring the deferred result; otherwise the first result is discarded and the
`while (!fn())` loop takes over.  The fuel `tmo + 2` always exceeds the
number of loop iterations because each sleep advances the clock by at least
one millisecond. -/
def waitUntil (fn : Nat → Nat → PredResult) (message : String)
    (timeOut waitInMs : Option Nat) : WaitTrace :=
  if (fn 0 0).truthy && (fn 0 0).hasThen then
    ⟨[.evalCall 0 0 (fn 0 0).truthy (fn 0 0).hasThen], .returned, 0⟩
  else
    ⟨.evalCall 0 0 (fn 0 0).truthy (fn 0 0).hasThen ::
        (waitLoop fn message (jsOrDefault timeOut 10000) (jsOrDefault waitInMs 500)
          (jsOrDefault timeOut 10000 + 2) 1 0).events,
      (waitLoop fn message (jsOrDefault timeOut 10000) (jsOrDefault waitInMs 500)
        (jsOrDefault timeOut 10000 + 2) 1 0).outcome,
      (waitLoop fn message (jsOrDefault timeOut 10000) (jsOrDefault waitInMs 500)
        (jsOrDefault timeOut 10000 + 2) 1 0).elapsed⟩

/-- The `allLoaded` accumulation of `waitForElements` (source lines 204-212):
an underscore `each` over the selector names that keeps querying presence only
while the accumulator is still true.  `present s t` is the adapter's answer to
`hasElement` for selector name `s` at elapsed time `t`. -/
def allLoaded (present : String → Nat → Bool) (selectors : List String) (t : Nat) : Bool :=
  selectors.foldl (fun acc s => if acc then acc && present s t else acc) true

/-- A single-quote character, used by the message `waitForElements` builds. -/
def squote : String := String.singleton (Char.ofNat 39)

/-- The description string `waitForElements` passes to `waitUntil`. -/
def waitForElementsMessage (selectors : List String) : String :=
  "Waited for selectors " ++ squote ++ String.intercalate ", " selectors ++ squote

/-- `waitForElements` (source lines 200-217): `waitUntil` applied to the
all-selectors-present predicate.  The predicate's value depends only on the
elapsed clock, and a `Bool` is never a thenable. -/
def waitForElements (present : String → Nat → Bool) (selectors : List String)
    (timeOut waitInMs : Option Nat) : WaitTrace :=
  waitUntil (fun _ e => ⟨allLoaded present selectors e, false⟩)
    (waitForElementsMessage selectors) timeOut waitInMs

/-- Adjacency discipline of a well-formed wait trace: a timeout check directly
follows a falsy predicate evaluation, and a sleep directly follows a
non-expired timeout check; a predicate evaluation may follow anything. -/
def adjOk : WaitEvent → WaitEvent → Bool
  | _, .evalCall _ _ _ _ => true
  | .evalCall _ _ t _, .timeoutCheck _ _ => !t
  | .timeoutCheck _ ex, .sleep _ => !ex
  | _, _ => false

/-- Every adjacent pair of the trace satisfies `adjOk`: in particular every
sleep is immediately preceded by a non-expired timeout check which is itself
immediately preceded by a falsy predicate evaluation, so the engine never
sleeps after an evaluation that returned true on the same pass, and the
timeout is checked after each failed evaluation and before the next sleep. -/
def chainOk : List WaitEvent → Bool
  | a :: b :: rest => adjOk a b && chainOk (b :: rest)
  | _ => true

def isEvalEvent : WaitEvent → Bool
  | .evalCall _ _ _ _ => true
  | _ => false

/-- The trace is empty or starts with a predicate evaluation. -/
def headEval : List WaitEvent → Bool
  | [] => true
  | ev :: _ => isEvalEvent ev

def isSleepEvent : WaitEvent → Bool
  | .sleep _ => true
  | _ => false

/-- Number of adapter sleeps recorded in a trace. -/
def sleepCount (evs : List WaitEvent) : Nat :=
  evs.countP (fun ev => isSleepEvent ev)

/-- Integer rectangle, as used for frames and black-out regions. -/
structure Rect where
  x : Int
  y : Int
  width : Int
  height : Int
deriving DecidableEq

/-- RGBA color value of one pixel. -/
structure Pixel where
  red : Nat
  green : Nat
  blue : Nat
  alpha : Nat
deriving DecidableEq

/-- The opaque black fill color of the black-out loop (source lines 343-348). -/
def blackPixel : Pixel := ⟨0, 0, 0, 255⟩

/-- A decoded mutable image: dimensions plus a pixel map.  The pixel map is
total over the integers; statements that care about the visible image use
`Image.Eqv`, which compares only in-bounds pixels. -/
structure Image where
  width : Int
  height : Int
  pixel : Int → Int → Pixel

/-- Membership of the point `(i, j)` in a rectangle. -/
def inRect (r : Rect) (i j : Int) : Prop :=
  r.x ≤ i ∧ i < r.x + r.width ∧ r.y ≤ j ∧ j < r.y + r.height

instance (r : Rect) (i j : Int) : Decidable (inRect r i j) := by
  unfold inRect
  exact inferInstance

/-- Modelled from the spec: the external image codec's fill capability
(`MutableImage.fillRect(x, y, w, h, color)` of pngjs-image): every pixel
inside the rectangle is painted with the color, everything else is kept. -/
def Image.fillRect (img : Image) (x y w h : Int) (c : Pixel) : Image :=
  { img with pixel := fun i j =>
      if x ≤ i ∧ i < x + w ∧ y ≤ j ∧ j < y + h then c else img.pixel i j }

/-- Modelled from the spec: the external image codec's clip capability
(`MutableImage.clip(x, y, w, h)` of pngjs-image): the result is the `w` by
`h` sub-image whose pixel `(i, j)` is the source pixel `(x+i, y+j)`. -/
def Image.clip (img : Image) (x y w h : Int) : Image :=
  ⟨w, h, fun i j => img.pixel (x + i) (y + j)⟩

/-- Two images show the same picture: same dimensions and the same pixels at
every in-bounds position. -/
def Image.Eqv (a b : Image) : Prop :=
  a.width = b.width ∧ a.height = b.height ∧
  ∀ i j : Int, 0 ≤ i → i < a.width → 0 ≤ j → j < a.height → a.pixel i j = b.pixel i j

/-- An entry of the black-out list of `capture` (source lines 311-317): either
a literal rectangle (its `x` is defined) or an object resolved once through
its `getFrame()`. -/
inductive BlackOutEntry where
  | literal (r : Rect)
  | frameProducer (r : Rect)
deriving DecidableEq

def resolveBlackOut : BlackOutEntry → Rect
  | .literal r => r
  | .frameProducer r => r

/-- Resolution of the black-out list performed by `capture` before any pixel
work: `entry.x === undefined ? entry.getFrame() : entry`. -/
def resolveBlackOuts (entries : List BlackOutEntry) : List Rect :=
  entries.map resolveBlackOut

/-- The black-out pass of `capture` (source lines 342-349): every rectangle of
the list is filled with opaque black, in list order. -/
def applyBlackOuts (img : Image) (l : List Rect) : Image :=
  l.foldl (fun im r => im.fillRect r.x r.y r.width r.height blackPixel) img

/-- The pixel pipeline of `capture` (source lines 341-354): black-out fills in
list order, then — only when the frame has nonzero width and nonzero height
(`(frame.width !== 0) && (frame.height !== 0)`) — the clip to the frame. -/
def composeCapture (img : Image) (blackOutList : List Rect) (frame : Rect) : Image :=
  if frame.width != 0 && frame.height != 0 then
    (applyBlackOuts img blackOutList).clip frame.x frame.y frame.width frame.height
  else
    applyBlackOuts img blackOutList

/-- A DOM element or context handle, as far as `getFrame` is concerned: it
either provides the `getFrame` capability (returning its bounding rectangle)
or it does not. -/
structure Element where
  frameCapability : Option Rect
deriving DecidableEq

/-- `getFrame` of the page-object (source lines 264-278): when a truthy
selector name is supplied the element is looked up through the adapter,
otherwise the object's context is used; if the chosen element supports
`getFrame` its rectangle is returned, and the zero rectangle otherwise. -/
def getFrame (context : Element) (lookup : String → Element)
    (selectorName : Option String) : Rect :=
  match
    (match selectorName with
     | some name => if name = "" then context else lookup name
     | none => context).frameCapability
  with
  | some f => f
  | none => ⟨0, 0, 0, 0⟩

/-- Selector table and load-selector list of a page-object instance. -/
structure BaseObjectState where
  selectors : List (String × String)
  loadSelectors : List String
deriving DecidableEq

/-- `getSelector` (source lines 145-148): property lookup in the selector
table. -/
def getSelector (st : BaseObjectState) (name : String) : Option String :=
  (st.selectors.find? (fun p => p.1 == name)).map (fun p => p.2)

/-- `hasSelector` (source lines 157-160): `!!selectors[selectorName]` — the
name must be present and its selector string truthy (non-empty). -/
def hasSelector (st : BaseObjectState) (name : String) : Bool :=
  match getSelector st name with
  | none => false
  | some v => v != ""

/-- In the source (lines 88-94) the guard of `addLoadSelector` is
`if (!this.hasSelector)`: it tests the truthiness of the method reference
`this.hasSelector` — a function object, hence always truthy — rather than
calling `this.hasSelector(selector)`.  The guard is therefore never taken. -/
def hasSelectorMethodDefined : Bool := true

/-- `addLoadSelector` (source lines 88-94), including the dead guard: when the
(always false) condition held it would throw; otherwise the name is appended
to the load-selector list unconditionally. -/
def addLoadSelector (st : BaseObjectState) (selector : String) :
    Except String BaseObjectState :=
  if !hasSelectorMethodDefined then
    .error ("Cannot add an unknown selector to the load selector list: " ++ selector)
  else
    .ok { st with loadSelectors := st.loadSelectors ++ [selector] }

/-- Modelled from the spec: `utils.fileNameSafe` of the external
preceptor-core package.  The spec's naming format and its scenario (the space
of "Login Test" becomes an underscore) show filesystem-unsafe characters
replaced by underscores and alphanumeric characters kept. -/
def fileNameSafe (s : String) : String :=
  String.mk (s.data.map (fun c => if c.isAlphanum then c else '_'))

/-- The output file name computed by `capture` (source lines 321-327):
`fileNameSafe(title) + underscore + fileNameSafe(id || "1") + ".png"`, with
`fileNameSafe(p) + underscore` prepended when the configured name part `p`
is truthy. -/
def captureFileName (title : String) (id pfx : Option String) : String :=
  match pfx with
  | none =>
    fileNameSafe title ++ "_" ++
      fileNameSafe (match id with
        | none => "1"
        | some s => if s = "" then "1" else s) ++ ".png"
  | some p =>
    if p = "" then
      fileNameSafe title ++ "_" ++
        fileNameSafe (match id with
          | none => "1"
          | some s => if s = "" then "1" else s) ++ ".png"
    else
      fileNameSafe p ++ "_" ++ fileNameSafe title ++ "_" ++
        fileNameSafe (match id with
          | none => "1"
          | some s => if s = "" then "1" else s) ++ ".png"

/-- Whether an external codec invokes its completion callback while the caller
is still on the stack (synchronously) or on a later tick (asynchronously). -/
inductive CallbackMode where
  | sync
  | async
deriving DecidableEq

/-- Settlement of the promise `capture` returns: resolution with the owning
object, rejection with an error, or no settlement at all (with the error that
escaped as an uncaught exception, if any). -/
inductive PromiseState where
  | resolvedSelf
  | rejected (e : String)
  | unsettled (uncaught : Option String)
deriving DecidableEq

/-- Settlement of the promise built by `capture` (source lines 329-371),
translated from the executor's control flow.  The executor wraps
`PNGImage.loadImage(buffer, cb)` in `try { ... } catch (err) { reject(err) }`;
the callbacks re-throw their `err` argument (`if (err) { throw err; }`), the
write-completion callback calls `resolve(self)` after a successful write, and
the fills and the clip sit between a successful decode and the write.  A
`throw` inside a callback reaches the `catch` only while the executor is
still running, i.e. only when the codec invokes that callback synchronously;
a throw from an asynchronously invoked callback happens after the `try` has
been exited and is an uncaught exception, settling nothing. -/
def captureSettle (decodeMode writeMode : CallbackMode)
    (decodeErr writeErr : Option String) : PromiseState :=
  match decodeMode with
  | .sync =>
    match decodeErr with
    | some e => .rejected e
    | none =>
      match writeMode with
      | .sync =>
        match writeErr with
        | some e => .rejected e
        | none => .resolvedSelf
      | .async =>
        match writeErr with
        | some e => .unsettled (some e)
        | none => .resolvedSelf
  | .async =>
    match decodeErr with
    | some e => .unsettled (some e)
    | none =>
      match writeErr with
      | some e => .unsettled (some e)
      | none => .resolvedSelf

/-- Concrete test image used by witnesses. -/
def testImg : Image :=
  ⟨200, 200, fun i j => ⟨(i % 256).toNat, (j % 256).toNat, 9, 255⟩⟩

/-- Concrete predicate that is truthy on its first invocation only: realizable
in the source as a closure over a counter. -/
def cexPred : Nat → Nat → PredResult := fun k _ => ⟨k == 0, false⟩

/-- Concrete predicate that is never truthy. -/
def cneverPred : Nat → Nat → PredResult := fun _ _ => ⟨false, false⟩

/-- Concrete adapter presence relation reporting every selector absent. -/
def cneverPresent : String → Nat → Bool := fun _ _ => false

/-- Concrete predicate whose first result is a truthy thenable. -/
def deferredPred : Nat → Nat → PredResult := fun _ _ => ⟨true, true⟩

/-- Concrete predicate that is always truthy and never a thenable. -/
def constTruePred : Nat → Nat → PredResult := fun _ _ => ⟨true, false⟩

/-- Concrete rectangles used by witnesses. -/
def rectA : Rect := ⟨1, 1, 3, 3⟩

def rectB : Rect := ⟨2, 2, 4, 4⟩

/-- The frame of the spec's clipping scenario. -/
def frame10 : Rect := ⟨10, 10, 100, 50⟩

/-- A black-out rectangle fully outside `frame10` (the spec's scenario). -/
def rectOut : Rect := ⟨0, 0, 5, 5⟩

/-- A black-out rectangle fully inside `frame10`. -/
def rectIn : Rect := ⟨20, 20, 5, 5⟩

/-- Pixel-disjointness test between a black-out rectangle and the frame,
expressed by coordinate arithmetic. -/
def rectOutside (r f : Rect) : Bool :=
  decide (r.x + r.width ≤ f.x) || decide (f.x + f.width ≤ r.x) ||
    decide (r.y + r.height ≤ f.y) || decide (f.y + f.height ≤ r.y)

/-- Containment test of a black-out rectangle in the frame. -/
def rectInside (r f : Rect) : Bool :=
  decide (f.x ≤ r.x) && decide (r.x + r.width ≤ f.x + f.width) &&
    decide (f.y ≤ r.y) && decide (r.y + r.height ≤ f.y + f.height)

theorem one_le_jsOrDefault (v : Option Nat) (d : Nat) (hd : 1 ≤ d) :
    1 ≤ jsOrDefault v d := by
  cases v with
  | none => exact hd
  | some n =>
    by_cases hn : n = 0
    · simp [jsOrDefault, hn, hd]
    · simp only [jsOrDefault, hn, if_false]
      omega

theorem waitLoop_timeout (fn : Nat → Nat → PredResult) (message : String)
    (tmo w : Nat) (hf : ∀ k e, (fn k e).truthy = false) (_hw : 1 ≤ w) :
    ∀ fuel k e, e < tmo + w → tmo + w ≤ e + fuel * w →
      (waitLoop fn message tmo w fuel k e).outcome =
          .timedOut ("Waited for an event, but timed-out. Message:" ++ message) ∧
        tmo ≤ (waitLoop fn message tmo w fuel k e).elapsed ∧
        (waitLoop fn message tmo w fuel k e).elapsed < tmo + w := by
  intro fuel
  induction fuel with
  | zero =>
    intro k e h1 h2
    omega
  | succ fuel ih =>
    intro k e h1 h2
    by_cases he : tmo ≤ e
    · simp [waitLoop, hf, he]
      omega
    · have h3 : e + w < tmo + w := by omega
      have h4 : tmo + w ≤ (e + w) + fuel * w := by
        have h5 := Nat.add_mul fuel 1 w
        have h6 := Nat.one_mul w
        omega
      have := ih (k + 1) (e + w) h3 h4
      simpa [waitLoop, hf, he] using this

theorem chainOk_cons (a : WaitEvent) (l : List WaitEvent)
    (hh : headEval l = true) (hc : chainOk l = true) : chainOk (a :: l) = true := by
  cases l with
  | nil => rfl
  | cons x xs =>
    cases x with
    | evalCall i e t h =>
      have ha : adjOk a (.evalCall i e t h) = true := by
        cases a <;> rfl
      simp [chainOk, ha, hc]
    | timeoutCheck e ex => simp [headEval, isEvalEvent] at hh
    | sleep ms => simp [headEval, isEvalEvent] at hh

theorem chainOk_waitLoop (fn : Nat → Nat → PredResult) (message : String)
    (tmo w : Nat) :
    ∀ fuel k e, chainOk (waitLoop fn message tmo w fuel k e).events = true ∧
      headEval (waitLoop fn message tmo w fuel k e).events = true := by
  intro fuel
  induction fuel with
  | zero => exact fun k e => ⟨rfl, rfl⟩
  | succ fuel ih =>
    intro k e
    by_cases ht : (fn k e).truthy = true
    · simp [waitLoop, ht, chainOk, headEval, isEvalEvent]
    · have ht' : (fn k e).truthy = false := by simpa using ht
      by_cases he : tmo ≤ e
      · simp [waitLoop, ht', he, chainOk, adjOk, headEval, isEvalEvent]
      · have hrest := ih (k + 1) (e + w)
        have hsleep :
            chainOk (.sleep w :: (waitLoop fn message tmo w fuel (k+1) (e+w)).events)
              = true :=
          chainOk_cons _ _ hrest.2 hrest.1
        simp [waitLoop, ht', he, chainOk, adjOk, headEval, isEvalEvent, hsleep]

theorem chainOk_waitUntil (fn : Nat → Nat → PredResult) (message : String)
    (timeOut waitInMs : Option Nat) :
    chainOk (waitUntil fn message timeOut waitInMs).events = true := by
  by_cases h : ((fn 0 0).truthy && (fn 0 0).hasThen) = true
  · simp [waitUntil, h, chainOk]
  · have hl := chainOk_waitLoop fn message (jsOrDefault timeOut 10000)
      (jsOrDefault waitInMs 500) (jsOrDefault timeOut 10000 + 2) 1 0
    simp only [waitUntil, h, if_false, Bool.false_eq_true]
    exact chainOk_cons _ _ hl.2 hl.1

theorem waitUntil_timeout_of_never (fn : Nat → Nat → PredResult)
    (message : String) (timeOut waitInMs : Option Nat)
    (hf : ∀ k e, (fn k e).truthy = false) :
    (waitUntil fn message timeOut waitInMs).outcome =
        .timedOut ("Waited for an event, but timed-out. Message:" ++ message) ∧
      jsOrDefault timeOut 10000 ≤ (waitUntil fn message timeOut waitInMs).elapsed ∧
      (waitUntil fn message timeOut waitInMs).elapsed <
        jsOrDefault timeOut 10000 + jsOrDefault waitInMs 500 := by
  have hw : 1 ≤ jsOrDefault waitInMs 500 := one_le_jsOrDefault _ _ (by omega)
  have hfuel : jsOrDefault timeOut 10000 + jsOrDefault waitInMs 500 ≤
      0 + (jsOrDefault timeOut 10000 + 2) * jsOrDefault waitInMs 500 := by
    have h3 : jsOrDefault timeOut 10000 * 1 ≤
        jsOrDefault timeOut 10000 * jsOrDefault waitInMs 500 :=
      Nat.mul_le_mul_left _ hw
    have h4 := Nat.add_mul (jsOrDefault timeOut 10000) 2 (jsOrDefault waitInMs 500)
    omega
  have h0 : (0 : Nat) < jsOrDefault timeOut 10000 + jsOrDefault waitInMs 500 := by
    omega
  have hmain := waitLoop_timeout fn message (jsOrDefault timeOut 10000)
    (jsOrDefault waitInMs 500) hf hw (jsOrDefault timeOut 10000 + 2) 1 0 h0 hfuel
  simpa [waitUntil, hf] using hmain

theorem loadFold_eq_all (present : String → Nat → Bool) (t : Nat) :
    ∀ (l : List String) (b : Bool),
      l.foldl (fun acc s => if acc then acc && present s t else acc) b =
        (b && l.all (fun s => present s t)) := by
  intro l
  induction l with
  | nil => intro b; simp
  | cons x xs ih =>
    intro b
    simp only [List.foldl_cons, List.all_cons]
    rw [ih]
    cases b <;> cases hx : present x t <;> simp

theorem allLoaded_false (present : String → Nat → Bool) (selectors : List String)
    (s : String) (hs : s ∈ selectors) (t : Nat) (hp : present s t = false) :
    allLoaded present selectors t = false := by
  unfold allLoaded
  rw [loadFold_eq_all]
  have hall : selectors.all (fun s => present s t) = false := by
    rw [List.all_eq_false]
    exact ⟨s, hs, by simp [hp]⟩
  simp [hall]

/-- C1: a predicate that never returns a truthy value makes `waitUntil`
terminate by throwing the timeout error carrying the description, at an
elapsed time at least `timeout` and less than `timeout + pollInterval`, with
the timeout check performed after each failed evaluation and before the next
sleep (the `chainOk` trace discipline); and `waitForElements` over a selector
set containing a name that never resolves present fails the same way. -/
theorem waitUntil_times_out (fn : Nat → Nat → PredResult) (message : String)
    (timeOut waitInMs : Option Nat) (present : String → Nat → Bool)
    (selectors : List String) (s : String)
    (hf : ∀ k e, (fn k e).truthy = false)
    (hs : s ∈ selectors) (hp : ∀ t, present s t = false) :
    ((waitUntil fn message timeOut waitInMs).outcome =
        .timedOut ("Waited for an event, but timed-out. Message:" ++ message) ∧
      jsOrDefault timeOut 10000 ≤ (waitUntil fn message timeOut waitInMs).elapsed ∧
      (waitUntil fn message timeOut waitInMs).elapsed <
        jsOrDefault timeOut 10000 + jsOrDefault waitInMs 500 ∧
      chainOk (waitUntil fn message timeOut waitInMs).events = true) ∧
    ((waitForElements present selectors timeOut waitInMs).outcome =
        .timedOut ("Waited for an event, but timed-out. Message:" ++
          waitForElementsMessage selectors) ∧
      jsOrDefault timeOut 10000 ≤
        (waitForElements present selectors timeOut waitInMs).elapsed ∧
      (waitForElements present selectors timeOut waitInMs).elapsed <
        jsOrDefault timeOut 10000 + jsOrDefault waitInMs 500) := by
  have h1 := waitUntil_timeout_of_never fn message timeOut waitInMs hf
  have hf2 : ∀ k e,
      ((fun (_ : Nat) (e : Nat) => PredResult.mk (allLoaded present selectors e) false) k e).truthy
        = false := by
    intro k e
    exact allLoaded_false present selectors s hs e (hp e)
  have h2 := waitUntil_timeout_of_never
    (fun _ e => ⟨allLoaded present selectors e, false⟩)
    (waitForElementsMessage selectors) timeOut waitInMs hf2
  exact ⟨⟨h1.1, h1.2.1, h1.2.2, chainOk_waitUntil fn message timeOut waitInMs⟩,
    ⟨h2.1, h2.2.1, h2.2.2⟩⟩

theorem waitUntil_times_out_witness :
    ((waitUntil cneverPred "m" (some 200) (some 50)).outcome =
        .timedOut ("Waited for an event, but timed-out. Message:" ++ "m") ∧
      200 ≤ (waitUntil cneverPred "m" (some 200) (some 50)).elapsed ∧
      (waitUntil cneverPred "m" (some 200) (some 50)).elapsed < 200 + 50 ∧
      chainOk (waitUntil cneverPred "m" (some 200) (some 50)).events = true) ∧
    ((waitForElements cneverPresent ["body"] (some 200) (some 50)).outcome =
        .timedOut ("Waited for an event, but timed-out. Message:" ++
          waitForElementsMessage ["body"]) ∧
      200 ≤ (waitForElements cneverPresent ["body"] (some 200) (some 50)).elapsed ∧
      (waitForElements cneverPresent ["body"] (some 200) (some 50)).elapsed <
        200 + 50) :=
  waitUntil_times_out cneverPred "m" (some 200) (some 50) cneverPresent
    ["body"] "body" (fun _ _ => rfl) (by simp) (fun _ => rfl)

theorem waitUntil_returns_of_second_truthy (fn : Nat → Nat → PredResult)
    (message : String) (timeOut waitInMs : Option Nat)
    (h0t : (fn 0 0).truthy = true) (h0n : (fn 0 0).hasThen = false)
    (h1 : (fn 1 0).truthy = true) :
    waitUntil fn message timeOut waitInMs =
      ⟨[.evalCall 0 0 true false, .evalCall 1 0 true (fn 1 0).hasThen],
        .returned, 0⟩ := by
  have hstep : jsOrDefault timeOut 10000 + 2 =
      (jsOrDefault timeOut 10000 + 1) + 1 := rfl
  rw [waitUntil, hstep]
  simp [waitLoop, h0t, h0n, h1]

/-- C2 (amended): `waitUntil` evaluates the predicate once immediately on
entry (the trace starts with the call of index 0 at elapsed 0), but a truthy
non-deferred first result does not return by itself: the `while` loop
re-evaluates the predicate, and the run returns without sleeping when that
second evaluation (index 1, still at elapsed 0) is also truthy.  For
predicates whose result depends only on the elapsed clock — in particular the
all-present check of `waitForElements` — a truthy first pass therefore
returns with no sleep, and no trace ever sleeps after an evaluation that
returned true on the same pass (`chainOk`). -/
theorem waitUntil_entry_evaluation (fn : Nat → Nat → PredResult)
    (message : String) (timeOut waitInMs : Option Nat)
    (present : String → Nat → Bool) (selectors : List String) :
    (waitUntil fn message timeOut waitInMs).events.head? =
        some (.evalCall 0 0 (fn 0 0).truthy (fn 0 0).hasThen) ∧
    ((fn 0 0).truthy = true → (fn 0 0).hasThen = false → (fn 1 0).truthy = true →
      waitUntil fn message timeOut waitInMs =
        ⟨[.evalCall 0 0 true false, .evalCall 1 0 true (fn 1 0).hasThen],
          .returned, 0⟩) ∧
    (allLoaded present selectors 0 = true →
      (waitForElements present selectors timeOut waitInMs).outcome = .returned ∧
        sleepCount (waitForElements present selectors timeOut waitInMs).events = 0) ∧
    chainOk (waitUntil fn message timeOut waitInMs).events = true := by
  refine ⟨?_, ?_, ?_, chainOk_waitUntil fn message timeOut waitInMs⟩
  · by_cases h : ((fn 0 0).truthy && (fn 0 0).hasThen) = true
    · simp [waitUntil, h]
    · simp [waitUntil, h]
  · intro h0t h0n h1
    exact waitUntil_returns_of_second_truthy fn message timeOut waitInMs h0t h0n h1
  · intro hl
    have := waitUntil_returns_of_second_truthy
      (fun _ e => ⟨allLoaded present selectors e, false⟩)
      (waitForElementsMessage selectors) timeOut waitInMs hl rfl hl
    unfold waitForElements
    rw [this]
    exact ⟨rfl, rfl⟩

theorem waitUntil_entry_evaluation_witness :
    (waitUntil constTruePred "m" none none).events.head? =
        some (.evalCall 0 0 true false) ∧
    waitUntil constTruePred "m" none none =
      ⟨[.evalCall 0 0 true false, .evalCall 1 0 true false], .returned, 0⟩ ∧
    ((waitForElements (fun _ _ => true) ["a"] none none).outcome = .returned ∧
      sleepCount (waitForElements (fun _ _ => true) ["a"] none none).events = 0) ∧
    chainOk (waitUntil constTruePred "m" none none).events = true := by
  have h := waitUntil_entry_evaluation constTruePred "m" none none
    (fun _ _ => true) ["a"]
  exact ⟨h.1, h.2.1 rfl rfl rfl, h.2.2.1 rfl, h.2.2.2⟩

/-- C2 counterexample: a predicate that is truthy and non-deferred on its
first invocation and falsy afterwards (a closure over a counter).  Although
the first evaluation returns true, the run sleeps twice and times out instead
of returning immediately without sleeping, because the `while (!fn())` loop
discards the entry result and re-evaluates. -/
theorem waitUntil_first_truthy_still_sleeps_cex :
    (cexPred 0 0).truthy = true ∧ (cexPred 0 0).hasThen = false ∧
    (waitUntil cexPred "m" (some 1000) (some 500)).outcome =
      .timedOut ("Waited for an event, but timed-out. Message:" ++ "m") ∧
    sleepCount (waitUntil cexPred "m" (some 1000) (some 500)).events = 2 := by
  refine ⟨rfl, rfl, ?_, ?_⟩ <;> rfl

/-- C6: when the first predicate result is a truthy thenable, the source's
branch is an empty `TODO`: `waitUntil` returns at once with a single
evaluation, zero sleeps and zero elapsed time, never waiting for the deferred
result to settle. -/
theorem waitUntil_ignores_deferred :
    waitUntil deferredPred "m" none none =
      ⟨[.evalCall 0 0 true true], .returned, 0⟩ := rfl

theorem Image.eq_of (a b : Image) (hw : a.width = b.width)
    (hh : a.height = b.height) (hp : ∀ i j, a.pixel i j = b.pixel i j) :
    a = b := by
  cases a with
  | mk aw ah ap =>
    cases b with
    | mk bw bh bp =>
      simp only at hw hh hp
      subst hw
      subst hh
      have : ap = bp := by
        funext i j
        exact hp i j
      rw [this]

theorem applyBlackOuts_width (l : List Rect) :
    ∀ img : Image, (applyBlackOuts img l).width = img.width := by
  induction l with
  | nil => intro img; rfl
  | cons r rs ih =>
    intro img
    simpa [applyBlackOuts, List.foldl_cons] using
      ih (img.fillRect r.x r.y r.width r.height blackPixel)

theorem applyBlackOuts_height (l : List Rect) :
    ∀ img : Image, (applyBlackOuts img l).height = img.height := by
  induction l with
  | nil => intro img; rfl
  | cons r rs ih =>
    intro img
    simpa [applyBlackOuts, List.foldl_cons] using
      ih (img.fillRect r.x r.y r.width r.height blackPixel)

theorem applyBlackOuts_pixel (l : List Rect) :
    ∀ (img : Image) (i j : Int),
      (applyBlackOuts img l).pixel i j =
        if ∃ r ∈ l, inRect r i j then blackPixel else img.pixel i j := by
  induction l with
  | nil =>
    intro img i j
    simp [applyBlackOuts]
  | cons r rs ih =>
    intro img i j
    have step : applyBlackOuts img (r :: rs) =
        applyBlackOuts (img.fillRect r.x r.y r.width r.height blackPixel) rs := by
      simp [applyBlackOuts, List.foldl_cons]
    rw [step, ih]
    by_cases hrs : ∃ q ∈ rs, inRect q i j
    · have hcons : ∃ q ∈ r :: rs, inRect q i j := by
        rcases hrs with ⟨q, hq, hin⟩
        exact ⟨q, List.mem_cons_of_mem r hq, hin⟩
      simp [hrs, hcons]
    · by_cases hr : inRect r i j
      · have hcons : ∃ q ∈ r :: rs, inRect q i j := ⟨r, List.mem_cons_self r rs, hr⟩
        have hfill : (img.fillRect r.x r.y r.width r.height blackPixel).pixel i j =
            blackPixel := by
          have hr' : r.x ≤ i ∧ i < r.x + r.width ∧ r.y ≤ j ∧ j < r.y + r.height := hr
          simp [Image.fillRect, hr']
        simp [hrs, hcons, hfill, hr]
      · have hcons : ¬ ∃ q ∈ r :: rs, inRect q i j := by
          rintro ⟨q, hq, hin⟩
          rcases List.mem_cons.mp hq with h | h
          · exact hr (h ▸ hin)
          · exact hrs ⟨q, h, hin⟩
        have hfill : (img.fillRect r.x r.y r.width r.height blackPixel).pixel i j =
            img.pixel i j := by
          have hr' : ¬ (r.x ≤ i ∧ i < r.x + r.width ∧ r.y ≤ j ∧ j < r.y + r.height) := hr
          simp [Image.fillRect, hr']
        simp [hrs, hcons, hfill, hr]

theorem rectOutside_disjoint (r f : Rect) (hout : rectOutside r f = true)
    (i j : Int) (hf : inRect f i j) : ¬ inRect r i j := by
  intro hin
  rcases hf with ⟨hf1, hf2, hf3, hf4⟩
  rcases hin with ⟨hr1, hr2, hr3, hr4⟩
  simp only [rectOutside, Bool.or_eq_true, decide_eq_true_eq] at hout
  omega

/-- C7: composing with an empty black-out list and the all-zero frame is the
identity on the decoded screenshot: no fill is applied and no clip is
applied. -/
theorem composeCapture_empty_identity (img : Image) :
    composeCapture img [] ⟨0, 0, 0, 0⟩ = img := rfl

/-- C5: clipping happens exactly when the frame has nonzero width and height,
and strictly after the black-out fills; a black-out rectangle disjoint from a
non-degenerate frame leaves the final clipped picture unchanged, and one
contained in the frame is opaque black everywhere it covers in the output. -/
theorem composeCapture_blackout_then_clip (img : Image) (l l₁ l₂ : List Rect)
    (f r : Rect) :
    (f.width ≠ 0 → f.height ≠ 0 →
      composeCapture img l f =
        (applyBlackOuts img l).clip f.x f.y f.width f.height) ∧
    (f.width = 0 ∨ f.height = 0 →
      composeCapture img l f = applyBlackOuts img l) ∧
    (f.width ≠ 0 → f.height ≠ 0 → rectOutside r f = true →
      Image.Eqv (composeCapture img (l₁ ++ r :: l₂) f)
        (composeCapture img (l₁ ++ l₂) f)) ∧
    (f.width ≠ 0 → f.height ≠ 0 → rectInside r f = true → r ∈ l →
      ∀ i j : Int, inRect r (f.x + i) (f.y + j) →
        (composeCapture img l f).pixel i j = blackPixel) := by
  have hclipAny : ∀ (m : List Rect), f.width ≠ 0 → f.height ≠ 0 →
      composeCapture img m f =
        (applyBlackOuts img m).clip f.x f.y f.width f.height := by
    intro m hw hh
    have hcond : (f.width != 0 && f.height != 0) = true := by
      simp [bne_iff_ne, hw, hh]
    simp [composeCapture, hcond]
  refine ⟨hclipAny l, ?_, ?_, ?_⟩
  · intro hdeg
    have hcond : (f.width != 0 && f.height != 0) = false := by
      rcases hdeg with h | h <;> simp [bne, h]
    simp [composeCapture, hcond]
  · intro hw hh hout
    rw [hclipAny _ hw hh, hclipAny _ hw hh]
    refine ⟨rfl, rfl, ?_⟩
    intro i j hi0 hiw hj0 hjh
    have hiw' : i < f.width := hiw
    have hjh' : j < f.height := hjh
    have hfmem : inRect f (f.x + i) (f.y + j) :=
      ⟨by omega, by omega, by omega, by omega⟩
    have hnr : ¬ inRect r (f.x + i) (f.y + j) :=
      rectOutside_disjoint r f hout _ _ hfmem
    show (applyBlackOuts img (l₁ ++ r :: l₂)).pixel (f.x + i) (f.y + j) =
      (applyBlackOuts img (l₁ ++ l₂)).pixel (f.x + i) (f.y + j)
    rw [applyBlackOuts_pixel, applyBlackOuts_pixel]
    have hiff : (∃ q ∈ l₁ ++ r :: l₂, inRect q (f.x + i) (f.y + j)) ↔
        (∃ q ∈ l₁ ++ l₂, inRect q (f.x + i) (f.y + j)) := by
      constructor
      · rintro ⟨q, hq, hin⟩
        rcases List.mem_append.mp hq with h | h
        · exact ⟨q, List.mem_append.mpr (Or.inl h), hin⟩
        · rcases List.mem_cons.mp h with h' | h'
          · exact absurd (h' ▸ hin) hnr
          · exact ⟨q, List.mem_append.mpr (Or.inr h'), hin⟩
      · rintro ⟨q, hq, hin⟩
        rcases List.mem_append.mp hq with h | h
        · exact ⟨q, List.mem_append.mpr (Or.inl h), hin⟩
        · exact ⟨q, List.mem_append.mpr (Or.inr (List.mem_cons_of_mem r h)), hin⟩
    exact if_congr hiff rfl rfl
  · intro hw hh _hins hmem i j hin
    rw [hclipAny _ hw hh]
    show (applyBlackOuts img l).pixel (f.x + i) (f.y + j) = blackPixel
    rw [applyBlackOuts_pixel]
    have hex : ∃ q ∈ l, inRect q (f.x + i) (f.y + j) := ⟨r, hmem, hin⟩
    simp [hex]

theorem composeCapture_blackout_then_clip_witness :
    (composeCapture testImg [rectIn] frame10 =
      (applyBlackOuts testImg [rectIn]).clip 10 10 100 50) ∧
    Image.Eqv (composeCapture testImg [rectOut] frame10)
      (composeCapture testImg [] frame10) ∧
    (composeCapture testImg [rectIn] frame10).pixel 10 10 = blackPixel := by
  have h := composeCapture_blackout_then_clip testImg [rectIn] [] [] frame10 rectIn
  have hout := composeCapture_blackout_then_clip testImg [rectIn] [] [] frame10 rectOut
  refine ⟨h.1 (by decide) (by decide), ?_, ?_⟩
  · exact hout.2.2.1 (by decide) (by decide) (by decide)
  · exact h.2.2.2 (by decide) (by decide) (by decide) (by simp) 10 10 (by decide)

/-- C8: every black-out fill writes the same opaque black, so the composed
output — both the filled image and the final clipped capture — is invariant
under permutation of the black-out list. -/
theorem applyBlackOuts_perm_invariant (img : Image) (f : Rect)
    (l₁ l₂ : List Rect) (h : l₁.Perm l₂) :
    applyBlackOuts img l₁ = applyBlackOuts img l₂ ∧
    composeCapture img l₁ f = composeCapture img l₂ f := by
  have base : applyBlackOuts img l₁ = applyBlackOuts img l₂ := by
    apply Image.eq_of
    · rw [applyBlackOuts_width, applyBlackOuts_width]
    · rw [applyBlackOuts_height, applyBlackOuts_height]
    · intro i j
      rw [applyBlackOuts_pixel, applyBlackOuts_pixel]
      have hiff : (∃ q ∈ l₁, inRect q i j) ↔ (∃ q ∈ l₂, inRect q i j) := by
        constructor
        · rintro ⟨q, hq, hin⟩
          exact ⟨q, h.mem_iff.mp hq, hin⟩
        · rintro ⟨q, hq, hin⟩
          exact ⟨q, h.mem_iff.mpr hq, hin⟩
      simp [hiff]
  refine ⟨base, ?_⟩
  unfold composeCapture
  rw [base]

theorem applyBlackOuts_perm_invariant_witness :
    applyBlackOuts testImg [rectA, rectB] = applyBlackOuts testImg [rectB, rectA] ∧
    composeCapture testImg [rectA, rectB] frame10 =
      composeCapture testImg [rectB, rectA] frame10 :=
  applyBlackOuts_perm_invariant testImg frame10 [rectA, rectB] [rectB, rectA]
    (List.Perm.swap rectB rectA [])

/-- C10: when the chosen element — the context when no selector name is
given, the looked-up element otherwise — does not provide the `getFrame`
capability, `getFrame` returns the zero rectangle, and `capture` on such an
object applies no clip to the composed image. -/
theorem getFrame_zero_and_no_clip (context : Element) (lookup : String → Element)
    (img : Image) (l : List Rect) (name : String)
    (hc : context.frameCapability = none)
    (he : (lookup name).frameCapability = none) (hn : name ≠ "") :
    getFrame context lookup none = ⟨0, 0, 0, 0⟩ ∧
    getFrame context lookup (some name) = ⟨0, 0, 0, 0⟩ ∧
    composeCapture img l (getFrame context lookup none) = applyBlackOuts img l := by
  have h1 : getFrame context lookup none = ⟨0, 0, 0, 0⟩ := by
    simp [getFrame, hc]
  have h2 : getFrame context lookup (some name) = ⟨0, 0, 0, 0⟩ := by
    simp [getFrame, hn, he]
  refine ⟨h1, h2, ?_⟩
  rw [h1]
  simp [composeCapture]

theorem getFrame_zero_and_no_clip_witness :
    getFrame ⟨none⟩ (fun _ => ⟨none⟩) none = ⟨0, 0, 0, 0⟩ ∧
    getFrame ⟨none⟩ (fun _ => ⟨none⟩) (some "header") = ⟨0, 0, 0, 0⟩ ∧
    composeCapture testImg [rectA] (getFrame ⟨none⟩ (fun _ => ⟨none⟩) none) =
      applyBlackOuts testImg [rectA] :=
  getFrame_zero_and_no_clip ⟨none⟩ (fun _ => ⟨none⟩) testImg [rectA] "header"
    rfl rfl (by decide)

/-- Selector table of the C3 evaluation: one known selector name. -/
def c3State : BaseObjectState := ⟨[("header", ".hdr")], []⟩

/-- C3 (code bug): the registration guard is dead.  `addLoadSelector` appends
every name — known or not — and never throws, because the source tests
`!this.hasSelector` (truthiness of the method itself) instead of
`!this.hasSelector(selector)`.  Evaluated both in general and at a name that
`hasSelector` reports absent. -/
theorem addLoadSelector_never_throws :
    (∀ st sel, addLoadSelector st sel =
      .ok ⟨st.selectors, st.loadSelectors ++ [sel]⟩) ∧
    hasSelector c3State "missing" = false ∧
    addLoadSelector c3State "missing" =
      .ok ⟨[("header", ".hdr")], ["missing"]⟩ :=
  ⟨fun _ _ => rfl, rfl, rfl⟩

/-- C4 (code bug): with the codec's asynchronous completion (the interface
the spec assigns to decode and write), a decode or write error is re-thrown
inside a callback that runs after the promise executor's try/catch has
exited, so the promise never rejects — it settles only on success; the
rejection path is reachable only for a synchronously invoked callback. -/
theorem captureSettle_async_error_never_settles :
    captureSettle .async .async (some "decode failed") none =
      .unsettled (some "decode failed") ∧
    captureSettle .async .async none (some "write failed") =
      .unsettled (some "write failed") ∧
    captureSettle .async .async none none = .resolvedSelf ∧
    captureSettle .sync .sync (some "decode failed") none =
      .rejected "decode failed" :=
  ⟨rfl, rfl, rfl, rfl⟩

/-- C9: the output file name is the sanitized name part (when configured and
truthy), the sanitized title, and the sanitized id joined with underscores
and suffixed ".png"; the id defaults to "1" when omitted; the spec's scenario
instance evaluates to "suite1_Login_Test_1.png". -/
theorem captureFileName_format (title idStr p : String)
    (hp : p ≠ "") (hid : idStr ≠ "") :
    captureFileName title none (some p) =
      fileNameSafe p ++ "_" ++ fileNameSafe title ++ "_" ++
        fileNameSafe "1" ++ ".png" ∧
    captureFileName title (some idStr) (some p) =
      fileNameSafe p ++ "_" ++ fileNameSafe title ++ "_" ++
        fileNameSafe idStr ++ ".png" ∧
    captureFileName title none none =
      fileNameSafe title ++ "_" ++ fileNameSafe "1" ++ ".png" ∧
    captureFileName "Login Test" none (some "suite1") =
      "suite1_Login_Test_1.png" := by
  refine ⟨?_, ?_, rfl, ?_⟩
  · simp [captureFileName, hp]
  · simp [captureFileName, hp, hid]
  · rfl

theorem captureFileName_format_witness :
    captureFileName "Login Test" none (some "suite1") =
      "suite1_Login_Test_1.png" :=
  (captureFileName_format "Login Test" "2" "suite1" (by decide) (by decide)).2.2.2

end Hodman
